import Mathlib

/-!
Verification of the MNIST loader/renderer (Go package `mnist`).

Byte streams are modelled as `List ℕ` (each element a byte 0..255); fallible
reads return `Option`.  Go `float64` values are modelled as exact rationals
`ℚ`; the only float operations used by the code are division by 255,
multiplication by 255 and conversion to `uint8`.  A Go panic (out-of-range
index) is modelled as `none`.
-/

namespace Mnist

/-! ## Byte-stream primitives (bufio / binary helpers used by dataset.go) -/

/-- `bufio.Reader.Discard n`: drops `n` bytes, fails when fewer are available. -/
def discardBytes (n : ℕ) (s : List ℕ) : Option (List ℕ) :=
  if n ≤ s.length then some (s.drop n) else none

/-- `bufio.Reader.ReadByte`: reads one byte, fails at end of stream. -/
def readByte : List ℕ → Option (ℕ × List ℕ)
  | [] => none
  | b :: rest => some (b, rest)

/-- `binary.Read(r, binary.BigEndian, &u32)`: reads 4 bytes, big-endian. -/
def readUInt32BE : List ℕ → Option (ℕ × List ℕ)
  | b0 :: b1 :: b2 :: b3 :: rest => some (((b0 * 256 + b1) * 256 + b2) * 256 + b3, rest)
  | _ => none

/-- One image record: `io.Copy` from a `LimitedReader` with limit `stride`,
followed by the `n < width*height` check in `readIntensities`. -/
def readRecord (stride : ℕ) (s : List ℕ) : Option (List ℕ × List ℕ) :=
  if stride ≤ s.length then some (s.take stride, s.drop stride) else none

/-- The record loop of `readIntensities` (`for j := range results`). -/
def readRecords (stride : ℕ) : ℕ → List ℕ → Option (List (List ℕ) × List ℕ)
  | 0, s => some ([], s)
  | n + 1, s =>
    match readRecord stride s with
    | none => none
    | some (v, s1) =>
      match readRecords stride n s1 with
      | none => none
      | some (vs, s2) => some (v :: vs, s2)

/-- The byte loop of `readLabels` (`for i := range res`). -/
def readBytes : ℕ → List ℕ → Option (List ℕ × List ℕ)
  | 0, s => some ([], s)
  | n + 1, s =>
    match readByte s with
    | none => none
    | some (b, s1) =>
      match readBytes n s1 with
      | none => none
      | some (bs, s2) => some (b :: bs, s2)

/-! ## Format decoder (dataset.go) -/

/-- Result of `readIntensities`: raw records plus bitmap dimensions. -/
structure IntensitiesResult where
  results : List (List ℕ)
  width : ℕ
  height : ℕ
deriving DecidableEq

/-- `readIntensities(reader)`: discard 4 bytes, read count / width / height as
big-endian u32, then read `count` records of `width*height` bytes each. -/
def readIntensities (s : List ℕ) : Option IntensitiesResult :=
  match discardBytes 4 s with
  | none => none
  | some s1 =>
    match readUInt32BE s1 with
    | none => none
    | some (count, s2) =>
      match readUInt32BE s2 with
      | none => none
      | some (width, s3) =>
        match readUInt32BE s3 with
        | none => none
        | some (height, s4) =>
          match readRecords (width * height) count s4 with
          | none => none
          | some (results, _) => some ⟨results, width, height⟩

/-- `readLabels(reader, count)`: discard 8 bytes, then read exactly `count`
label bytes. -/
def readLabels (s : List ℕ) (count : ℕ) : Option (List ℕ) :=
  match discardBytes 8 s with
  | none => none
  | some s1 =>
    match readBytes count s1 with
    | none => none
    | some (labels, _) => some labels

/-! ## Sample / DataSet model (dataset.go) -/

/-- One labeled handwritten digit (`Sample` in dataset.go). -/
structure Sample where
  intensities : List ℚ
  label : ℕ
deriving DecidableEq

/-- A collection of samples with shared dimensions (`DataSet` in dataset.go). -/
structure DataSet where
  samples : List Sample
  width : ℕ
  height : ℕ
deriving DecidableEq

/-- `loadDataSet`: decode both streams (image stream and decompressed label
stream), then build one `Sample` per record, normalizing each byte by 255.0
and pairing record `i` with label `i`.  The Go code panics on a decode error;
here that is `none`. -/
def loadDataSet (imageStream labelStream : List ℕ) : Option DataSet :=
  match readIntensities imageStream with
  | none => none
  | some ir =>
    match readLabels labelStream ir.results.length with
    | none => none
    | some labels =>
      some { width := ir.width
             height := ir.height
             samples := List.zipWith
               (fun v l => { intensities := v.map (fun x => (x : ℚ) / 255), label := l })
               ir.results labels }

/-- The body of `DataSet.LabelVectors` for one sample: a length-10 zero vector
with entry `label` set to 1.  Go panics when `label ≥ 10` (index out of
range); that is `none` here. -/
def labelVector (label : ℕ) : Option (List ℚ) :=
  if label < 10 then some ((List.replicate 10 (0 : ℚ)).set label 1) else none

/-- The sample loop of `DataSet.LabelVectors`. -/
def labelVectorsAux : List Sample → Option (List (List ℚ))
  | [] => some []
  | s :: rest =>
    match labelVector s.label with
    | none => none
    | some v =>
      match labelVectorsAux rest with
      | none => none
      | some vs => some (v :: vs)

/-- `DataSet.LabelVectors`: one one-hot vector per sample. -/
def labelVectors (d : DataSet) : Option (List (List ℚ)) :=
  labelVectorsAux d.samples

/-- `DataSet.NumCorrect`: count the samples the classifier labels correctly.
A Go `Classifier` returns an `int`, modelled as `ℤ`. -/
def numCorrect (d : DataSet) (classifier : List ℚ → ℤ) : ℕ :=
  d.samples.foldl
    (fun count s => if classifier s.intensities = (s.label : ℤ) then count + 1 else count) 0

/-! ## Reconstruction grid (reconstruction.go) -/

/-- `gridSpacing` constant in reconstruction.go. -/
def gridSpacing : ℕ := 4

/-- `smallGridSpace` constant in reconstruction.go. -/
def smallGridSpace : ℕ := 2

/-- An RGBA pixel as stored by Go's `image.RGBA`. -/
structure RGBA where
  r : ℕ
  g : ℕ
  b : ℕ
  a : ℕ
deriving DecidableEq

/-- `gridBackground` constant in reconstruction.go. -/
def gridBackground : RGBA := ⟨0x56, 0xbc, 0xd4, 0xff⟩

/-- The pixel grid of an `image.RGBA`, as a function from coordinates. -/
def Canvas : Type := ℕ → ℕ → RGBA

/-- `image.NewRGBA`: all pixels start zeroed (transparent black). -/
def emptyCanvas : Canvas := fun _ _ => ⟨0, 0, 0, 0⟩

/-- `img.Set(x, y, col)`: bounds-checked pixel write (out-of-bounds is a
no-op, as in Go's `image.RGBA.Set`). -/
def setPixel (iw ih : ℕ) (c : Canvas) (x y : ℕ) (col : RGBA) : Canvas :=
  if x < iw ∧ y < ih then
    fun px py => if px = x ∧ py = y then col else c px py
  else c

/-- `color.Gray{Y: y}` converted to RGBA storage. -/
def grayColor (y : ℕ) : RGBA := ⟨y, y, y, 255⟩

/-- Go's `uint8(x)` conversion of a nonnegative float: truncation toward
zero. -/
def uint8OfFloat (x : ℚ) : ℕ := (Int.toNat ⌊x⌋) % 256

/-- The color written for one pixel value `v`:
`color.Gray{Y: 0xff - uint8(v*0xff)}`. -/
def pixelColor (v : ℚ) : RGBA := grayColor (255 - uint8OfFloat (v * 255))

/-- One row of the background fill loop of `ReconstructionGrid`. -/
def fillRow (iw ih yy : ℕ) (c : Canvas) : Canvas :=
  (List.range iw).foldl (fun c2 x => setPixel iw ih c2 x yy gridBackground) c

/-- The background fill double loop of `ReconstructionGrid`. -/
def fillBackground (iw ih : ℕ) (c : Canvas) : Canvas :=
  (List.range ih).foldl (fun c1 y => fillRow iw ih y c1) c

/-- One row of the bitmap-drawing loop (`for rx := 0; rx < d.Width; rx++`);
`base + rx` is the running `pixelIdx`. -/
def drawRow (iw ih : ℕ) (x yy w : ℕ) (pixels : List ℚ) (base : ℕ) (c : Canvas) : Canvas :=
  (List.range w).foldl
    (fun c1 rx => setPixel iw ih c1 (x + rx) yy (pixelColor (pixels.getD (base + rx) 0))) c

/-- The bitmap-drawing double loop of `ReconstructionGrid`: paints `pixels`
row-major at top-left `(x, y)`. -/
def drawBitmap (iw ih : ℕ) (x y w h : ℕ) (pixels : List ℚ) (c : Canvas) : Canvas :=
  (List.range h).foldl (fun c1 ry => drawRow iw ih x (y + ry) w pixels (ry * w) c1) c

/-- Top-left x coordinate of grid cell column `col`
(`x := gridSpacing*(col+1) + col*(d.Width*2+smallGridSpace)`). -/
def cellX (w col : ℕ) : ℕ := gridSpacing * (col + 1) + col * (w * 2 + smallGridSpace)

/-- Top-left y coordinate of grid cell row `row`
(`y := gridSpacing*(row+1) + row*d.Height`). -/
def cellY (h row : ℕ) : ℕ := gridSpacing * (row + 1) + row * h

/-- Zero value a `getD` lookup falls back to; never reached when the sample
index is in range. -/
def defaultSample : Sample := ⟨[], 0⟩

/-- The body of the per-cell loop of `ReconstructionGrid`: draw the chosen
sample at the cell's top-left, then its reconstruction shifted right by
`d.Width + smallGridSpace`.  `si` is the index `rand.Intn(len(d.Samples))`
returned for this cell. -/
def drawCell (iw ih : ℕ) (rcon : List ℚ → List ℚ) (d : DataSet) (row col si : ℕ)
    (c : Canvas) : Canvas :=
  let y := cellY d.height row
  let x := cellX d.width col
  let sample := d.samples.getD si defaultSample
  let c1 := drawBitmap iw ih x y d.width d.height sample.intensities c
  drawBitmap iw ih (x + d.width + smallGridSpace) y d.width d.height
    (rcon sample.intensities) c1

/-- The produced raster image: its bounds and pixel grid. -/
structure GridImage where
  width : ℕ
  height : ℕ
  canvas : Canvas

/-- `ReconstructionGrid(r, d, rows, cols)`.  The random draw
`rand.Intn(len(d.Samples))` for cell `(row, col)` is modelled by the oracle
`pick row col` (in range when the data set is non-empty). -/
def reconstructionGrid (rcon : List ℚ → List ℚ) (d : DataSet) (rows cols : ℕ)
    (pick : ℕ → ℕ → ℕ) : GridImage :=
  let iw := gridSpacing * (cols + 1) + cols * (d.width * 2 + smallGridSpace)
  let ih := gridSpacing * (rows + 1) + rows * d.height
  let c0 := fillBackground iw ih emptyCanvas
  let c := (List.range rows).foldl (fun c1 row =>
    (List.range cols).foldl
      (fun c2 col => drawCell iw ih rcon d row col (pick row col) c2) c1) c0
  ⟨iw, ih, c⟩

/-! ## Auxiliary definitions used only in theorem statements -/

/-- Big-endian 4-byte encoding of a value below 2^32 (statement-side). -/
def beBytes32 (n : ℕ) : List ℕ :=
  [n / 16777216 % 256, n / 65536 % 256, n / 256 % 256, n % 256]

/-- Record `i` of a body stream, as the spec describes it: bytes
`[i*stride, (i+1)*stride)` in stream order (statement-side). -/
def specChunk (stride i : ℕ) (body : List ℕ) : List ℕ :=
  (body.drop (i * stride)).take stride

/-- All `n` records of a body stream (statement-side). -/
def specChunks (stride n : ℕ) (body : List ℕ) : List (List ℕ) :=
  (List.range n).map (fun i => specChunk stride i body)

/-- Membership of a pixel in the bounding box of grid cell `(row, col)`:
the two bitmaps plus the small gap between them (statement-side). -/
def inCell (w h px py row col : ℕ) : Prop :=
  cellX w col ≤ px ∧ px < cellX w col + (w * 2 + smallGridSpace) ∧
  cellY h row ≤ py ∧ py < cellY h row + h

instance (w h px py row col : ℕ) : Decidable (inCell w h px py row col) := by
  unfold inCell; infer_instance

/-- The §8 concrete scenario's image stream: arbitrary 4-byte magic, then
count=2, width=2, height=2, then the 8 record bytes. -/
def imgStreamEx : List ℕ :=
  [0, 0, 8, 3] ++ beBytes32 2 ++ beBytes32 2 ++ beBytes32 2 ++ [0, 255, 128, 64, 200, 10, 0, 0]

/-- The §8 concrete scenario's label stream: 8 header bytes (magic and a
declared count of 2), then the label bytes 3 and 7. -/
def lblStreamEx : List ℕ := [0, 0, 8, 1, 0, 0, 0, 2] ++ [3, 7]

/-- The data set the §8 concrete scenario must produce. -/
def dataSetEx : DataSet :=
  ⟨[⟨[0, 1, 128/255, 64/255], 3⟩, ⟨[200/255, 10/255, 0, 0], 7⟩], 2, 2⟩

/-- A one-record (1x1) image stream used as a small concrete input. -/
def imgStreamSmall : List ℕ :=
  [0, 0, 8, 3] ++ beBytes32 1 ++ beBytes32 1 ++ beBytes32 1 ++ [7]

/-- A label stream whose 8-byte header declares a count of 5 and whose
content holds 2 label bytes; paired with `imgStreamSmall` (1 image record),
both its declared count and its content disagree with the image stream. -/
def lblStreamSurplus : List ℕ := [0, 0, 8, 1, 0, 0, 0, 5] ++ [3, 7]

/-- Like `dataSetEx` but with a first label byte of 12, outside [0, 9]. -/
def dataSetBad : DataSet :=
  ⟨[⟨[0, 1, 128/255, 64/255], 12⟩, ⟨[200/255, 10/255, 0, 0], 7⟩], 2, 2⟩

/-! ## Theorems -/

theorem discardBytes_append (n : ℕ) (hdr rest : List ℕ) (h : hdr.length = n) :
    discardBytes n (hdr ++ rest) = some rest := by
  subst h
  unfold discardBytes
  rw [if_pos (by simp), List.drop_left]

theorem readUInt32BE_beBytes (n : ℕ) (h : n < 4294967296) (rest : List ℕ) :
    readUInt32BE (beBytes32 n ++ rest) = some (n, rest) := by
  simp only [beBytes32, List.cons_append, List.nil_append, readUInt32BE, Option.some.injEq,
    Prod.mk.injEq, and_true]
  omega

theorem specChunks_succ (stride n : ℕ) (s : List ℕ) :
    specChunks stride (n + 1) s = s.take stride :: specChunks stride n (s.drop stride) := by
  unfold specChunks
  rw [List.range_succ_eq_map]
  simp only [List.map_cons, List.map_map]
  congr 1
  · simp [specChunk]
  · apply List.map_congr_left
    intro i _
    simp only [Function.comp_apply, specChunk, List.drop_drop]
    congr 2
    rw [Nat.succ_mul]
    ring

theorem readRecords_eq (stride n : ℕ) (s : List ℕ) :
    readRecords stride n s =
      if n * stride ≤ s.length then some (specChunks stride n s, s.drop (n * stride))
      else none := by
  induction n generalizing s with
  | zero => simp [readRecords, specChunks]
  | succ n ih =>
    have hmul : (n + 1) * stride = n * stride + stride := by ring
    by_cases h : stride ≤ s.length
    · have h1 : readRecord stride s = some (s.take stride, s.drop stride) := by
        simp [readRecord, h]
      have hlen : (s.drop stride).length = s.length - stride := by simp
      simp only [readRecords, h1, ih, hlen]
      by_cases h2 : (n + 1) * stride ≤ s.length
      · rw [if_pos (by omega), if_pos h2, specChunks_succ stride n s, List.drop_drop]
        have h3 : stride + n * stride = (n + 1) * stride := by ring
        rw [h3]
      · rw [if_neg (by omega), if_neg h2]
    · have h1 : readRecord stride s = none := by simp [readRecord, h]
      simp only [readRecords, h1]
      rw [if_neg (by omega)]

theorem readBytes_eq (n : ℕ) (s : List ℕ) :
    readBytes n s = if n ≤ s.length then some (s.take n, s.drop n) else none := by
  induction n generalizing s with
  | zero => simp [readBytes]
  | succ n ih =>
    cases s with
    | nil => simp [readBytes, readByte]
    | cons b rest =>
      have h1 : readByte (b :: rest) = some (b, rest) := rfl
      simp only [readBytes, h1, ih, List.length_cons]
      by_cases h2 : n ≤ rest.length
      · rw [if_pos h2, if_pos (by omega)]
        simp
      · rw [if_neg h2, if_neg (by omega)]

theorem readLabels_eq (hdr content : List ℕ) (n : ℕ) (h : hdr.length = 8) :
    readLabels (hdr ++ content) n =
      if n ≤ content.length then some (content.take n) else none := by
  simp only [readLabels, discardBytes_append 8 hdr content h, readBytes_eq]
  by_cases h2 : n ≤ content.length
  · rw [if_pos h2, if_pos h2]
  · rw [if_neg h2, if_neg h2]

/-- Claim C2: image-stream decode skips exactly 4 leading bytes, reads
big-endian u32 count `N`, width `W`, height `H`, then reads `N` records of
exactly `W*H` bytes each in stream order; whenever the body holds fewer than
`N*W*H` bytes (any truncation before the final record completes), the whole
decode fails and nothing is produced. -/
theorem readIntensities_decode (hdr : List ℕ) (h4 : hdr.length = 4) (N W H : ℕ)
    (hN : N < 4294967296) (hW : W < 4294967296) (hH : H < 4294967296) (body : List ℕ) :
    readIntensities (hdr ++ beBytes32 N ++ beBytes32 W ++ beBytes32 H ++ body) =
      if N * (W * H) ≤ body.length then some ⟨specChunks (W * H) N body, W, H⟩ else none := by
  simp only [List.append_assoc]
  simp only [readIntensities, discardBytes_append 4 hdr _ h4,
    readUInt32BE_beBytes N hN, readUInt32BE_beBytes W hW, readUInt32BE_beBytes H hH,
    readRecords_eq]
  by_cases h : N * (W * H) ≤ body.length
  · rw [if_pos h, if_pos h]
  · rw [if_neg h, if_neg h]

theorem readIntensities_decode_witness :
    ([0, 0, 8, 3] : List ℕ).length = 4 ∧ (2 : ℕ) < 4294967296 ∧ (1 : ℕ) < 4294967296 ∧
      readIntensities ([0, 0, 8, 3] ++ beBytes32 2 ++ beBytes32 1 ++ beBytes32 1 ++ [9, 7]) =
        if 2 * (1 * 1) ≤ ([9, 7] : List ℕ).length
        then some ⟨specChunks (1 * 1) 2 [9, 7], 1, 1⟩ else none :=
  ⟨by decide, by decide, by decide,
    readIntensities_decode [0, 0, 8, 3] (by decide) 2 1 1
      (by decide) (by decide) (by decide) [9, 7]⟩

theorem numCorrect_foldl_acc (classifier : List ℚ → ℤ) (l : List Sample) (acc : ℕ) :
    l.foldl (fun count s => if classifier s.intensities = (s.label : ℤ) then count + 1 else count) acc
      = acc + l.countP (fun s => decide (classifier s.intensities = (s.label : ℤ))) := by
  induction l generalizing acc with
  | nil => simp
  | cons s rest ih =>
    simp only [List.foldl_cons, List.countP_cons, ih]
    by_cases h : classifier s.intensities = (s.label : ℤ) <;> (simp [h]; try omega)

/-- Claim C6: the accuracy count equals the number of samples for which the
classifying function applied to the sample's normalized intensities returns
the sample's true label. -/
theorem numCorrect_eq_countP (d : DataSet) (classifier : List ℚ → ℤ) :
    numCorrect d classifier
      = d.samples.countP (fun s => decide (classifier s.intensities = (s.label : ℤ))) := by
  unfold numCorrect
  simpa using numCorrect_foldl_acc classifier d.samples 0

/-- Claim C5: for every label in [0, 9], the label vector is a length-10
sequence with 1 at index `label`, 0 at the other nine indices, and sum
exactly 1. -/
theorem labelVector_one_hot (label : ℕ) (h : label < 10) :
    ∃ v, labelVector label = some v ∧ v.length = 10 ∧ v.getD label 0 = 1 ∧
      (∀ j, j < 10 → j ≠ label → v.getD j 0 = 0) ∧ v.sum = 1 := by
  refine ⟨(List.replicate 10 (0 : ℚ)).set label 1, ?_⟩
  interval_cases label <;>
    (norm_num [labelVector, List.replicate_succ]; intro j hj hne; interval_cases j <;> simp_all)

theorem loadDataSet_eq (img : List ℕ) (ir : IntensitiesResult)
    (hir : readIntensities img = some ir) (hdr content : List ℕ) (hh : hdr.length = 8) :
    loadDataSet img (hdr ++ content) =
      if ir.results.length ≤ content.length
      then some ⟨List.zipWith (fun v l => ⟨v.map (fun x => (x : ℚ) / 255), l⟩)
                  ir.results (content.take ir.results.length), ir.width, ir.height⟩
      else none := by
  simp only [loadDataSet, hir, readLabels_eq hdr content _ hh]
  by_cases h : ir.results.length ≤ content.length
  · rw [if_pos h, if_pos h]
  · rw [if_neg h, if_neg h]

/-- Claim C1 (amended): construction pairs image record `i` with label `i`
positionally; the label stream's declared count is never compared, and
construction succeeds exactly when the label stream's content (after the 8
header bytes) holds at least as many bytes as there are decoded image
records — a shortage fails as a read error, never as `CountMismatch`, and a
surplus is ignored. -/
theorem loadDataSet_pairing (img : List ℕ) (ir : IntensitiesResult)
    (hir : readIntensities img = some ir) (hdr content : List ℕ) (hh : hdr.length = 8) :
    ((loadDataSet img (hdr ++ content)).isSome ↔ ir.results.length ≤ content.length) ∧
    ∀ d, loadDataSet img (hdr ++ content) = some d →
      d.samples.length = ir.results.length ∧
      ∀ i (h1 : i < d.samples.length) (h2 : i < ir.results.length) (h3 : i < content.length),
        d.samples.get ⟨i, h1⟩ =
          ⟨(ir.results.get ⟨i, h2⟩).map (fun x => (x : ℚ) / 255), content.get ⟨i, h3⟩⟩ := by
  rw [loadDataSet_eq img ir hir hdr content hh]
  by_cases h : ir.results.length ≤ content.length
  · rw [if_pos h]
    refine ⟨by simp [h], ?_⟩
    intro d hd
    rw [Option.some_inj] at hd
    subst hd
    constructor
    · simp only [DataSet.samples, List.length_zipWith, List.length_take]
      omega
    · intro i h1 h2 h3
      simp only [DataSet.samples] at h1 ⊢
      rw [List.get_eq_getElem, List.getElem_zipWith]
      congr 1
      rw [List.getElem_take]
      simp
  · rw [if_neg h]
    refine ⟨by simp [h], ?_⟩
    intro d hd
    exact absurd hd (by simp)

/-- Claim C1, counterexample to the claim as stated: with one decoded image
record, a label stream whose header declares a count of 5 and whose content
holds 2 label bytes, construction succeeds — it does not fail with
`CountMismatch` although the label stream declares a different sample count
both via its count header and via its content. -/
theorem loadDataSet_no_countMismatch :
    (loadDataSet imgStreamSmall lblStreamSurplus).isSome = true := by decide

theorem loadDataSet_pairing_witness :
    readIntensities imgStreamSmall = some ⟨[[7]], 1, 1⟩ ∧
      ([0, 0, 8, 1, 0, 0, 0, 5] : List ℕ).length = 8 ∧
      (((loadDataSet imgStreamSmall ([0, 0, 8, 1, 0, 0, 0, 5] ++ [3, 7])).isSome ↔
          ([[7]] : List (List ℕ)).length ≤ ([3, 7] : List ℕ).length) ∧
        ∀ d, loadDataSet imgStreamSmall ([0, 0, 8, 1, 0, 0, 0, 5] ++ [3, 7]) = some d →
          d.samples.length = ([[7]] : List (List ℕ)).length ∧
          ∀ i (h1 : i < d.samples.length) (h2 : i < ([[7]] : List (List ℕ)).length)
            (h3 : i < ([3, 7] : List ℕ).length),
            d.samples.get ⟨i, h1⟩ =
              ⟨(([[7]] : List (List ℕ)).get ⟨i, h2⟩).map (fun x => (x : ℚ) / 255),
                ([3, 7] : List ℕ).get ⟨i, h3⟩⟩) :=
  ⟨by decide, by decide,
    loadDataSet_pairing imgStreamSmall ⟨[[7]], 1, 1⟩ (by decide)
      [0, 0, 8, 1, 0, 0, 0, 5] [3, 7] (by decide)⟩

/-- Claim C9: the label stream's declared record count is never read or
compared — the result is the same for any 8 header bytes — exactly as many
label bytes as there are decoded image records are consumed, and a label
stream with surplus content bytes decodes successfully, ignoring the
surplus. -/
theorem readLabels_ignores_header (img : List ℕ) (ir : IntensitiesResult)
    (hir : readIntensities img = some ir) (hdr hdr2 content extra : List ℕ)
    (hh : hdr.length = 8) (hh2 : hdr2.length = 8)
    (hc : content.length = ir.results.length) :
    readLabels (hdr ++ (content ++ extra)) ir.results.length = some content ∧
    readLabels (hdr2 ++ (content ++ extra)) ir.results.length
      = readLabels (hdr ++ (content ++ extra)) ir.results.length ∧
    (loadDataSet img (hdr ++ (content ++ extra))).isSome = true ∧
    loadDataSet img (hdr ++ (content ++ extra)) = loadDataSet img (hdr ++ content) := by
  have htake : (content ++ extra).take ir.results.length = content := by
    rw [← hc, List.take_left]
  have hlen : ir.results.length ≤ (content ++ extra).length := by
    simp [← hc]
  have h1 : readLabels (hdr ++ (content ++ extra)) ir.results.length = some content := by
    rw [readLabels_eq hdr _ _ hh, if_pos hlen, htake]
  refine ⟨h1, ?_, ?_, ?_⟩
  · rw [readLabels_eq hdr2 _ _ hh2, if_pos hlen, htake, h1]
  · rw [loadDataSet_eq img ir hir hdr _ hh, if_pos hlen]
    simp
  · rw [loadDataSet_eq img ir hir hdr _ hh, if_pos hlen,
      loadDataSet_eq img ir hir hdr content hh, if_pos (le_of_eq hc.symm), htake,
      ← hc, List.take_length]

theorem readLabels_ignores_header_witness :
    readIntensities imgStreamSmall = some ⟨[[7]], 1, 1⟩ ∧
      ([0, 0, 8, 1, 0, 0, 0, 9] : List ℕ).length = 8 ∧
      ([1, 2, 3, 4, 5, 6, 7, 8] : List ℕ).length = 8 ∧
      ([3] : List ℕ).length = ([[7]] : List (List ℕ)).length ∧
      (readLabels ([0, 0, 8, 1, 0, 0, 0, 9] ++ ([3] ++ [7, 7]))
          ([[7]] : List (List ℕ)).length = some [3] ∧
        readLabels ([1, 2, 3, 4, 5, 6, 7, 8] ++ ([3] ++ [7, 7]))
            ([[7]] : List (List ℕ)).length
          = readLabels ([0, 0, 8, 1, 0, 0, 0, 9] ++ ([3] ++ [7, 7]))
              ([[7]] : List (List ℕ)).length ∧
        (loadDataSet imgStreamSmall ([0, 0, 8, 1, 0, 0, 0, 9] ++ ([3] ++ [7, 7]))).isSome
          = true ∧
        loadDataSet imgStreamSmall ([0, 0, 8, 1, 0, 0, 0, 9] ++ ([3] ++ [7, 7]))
          = loadDataSet imgStreamSmall ([0, 0, 8, 1, 0, 0, 0, 9] ++ [3])) :=
  ⟨by decide, by decide, by decide, by decide,
    readLabels_ignores_header imgStreamSmall ⟨[[7]], 1, 1⟩ (by decide)
      [0, 0, 8, 1, 0, 0, 0, 9] [1, 2, 3, 4, 5, 6, 7, 8] [3] [7, 7]
      (by decide) (by decide) (by decide)⟩

theorem loadDataSet_ex_eval : loadDataSet imgStreamEx lblStreamEx = some dataSetEx := by
  have h1 : readIntensities imgStreamEx = some ⟨[[0, 255, 128, 64], [200, 10, 0, 0]], 2, 2⟩ := by
    decide
  have h2 : readLabels lblStreamEx
      ([[0, 255, 128, 64], [200, 10, 0, 0]] : List (List ℕ)).length = some [3, 7] := by decide
  simp only [loadDataSet, h1, h2, dataSetEx, List.zipWith, List.map, Option.some_inj]
  norm_num

/-- Claim C3: on the concrete streams of §8 (image header count=2, width=2,
height=2 and record bytes [0,255,128,64,200,10,0,0]; label bytes [3,7]),
decoding yields exactly the two raw records [0,255,128,64] and [200,10,0,0],
and the data set pairs their normalized forms with labels 3 and 7. -/
theorem loadDataSet_concrete :
    readIntensities imgStreamEx = some ⟨[[0, 255, 128, 64], [200, 10, 0, 0]], 2, 2⟩ ∧
    loadDataSet imgStreamEx lblStreamEx = some dataSetEx :=
  ⟨by decide, loadDataSet_ex_eval⟩

/-- Claim C4: every stored normalized intensity equals the corresponding raw
byte divided by 255, and multiplying it back by 255 and rounding recovers
the raw byte exactly. -/
theorem loadDataSet_normalization (img lbl : List ℕ) (d : DataSet) (ir : IntensitiesResult)
    (hir : readIntensities img = some ir) (hd : loadDataSet img lbl = some d) :
    ∀ i (h1 : i < d.samples.length) (h2 : i < ir.results.length),
      (d.samples.get ⟨i, h1⟩).intensities
        = (ir.results.get ⟨i, h2⟩).map (fun x => (x : ℚ) / 255) ∧
      ∀ b ∈ ir.results.get ⟨i, h2⟩, round (((b : ℚ) / 255) * 255) = (b : ℤ) := by
  intro i h1 h2
  constructor
  · simp only [loadDataSet, hir] at hd
    rcases hlab : readLabels lbl ir.results.length with _ | labels
    · rw [hlab] at hd; cases hd
    · rw [hlab, Option.some_inj] at hd
      subst hd
      simp only [List.get_eq_getElem, List.getElem_zipWith]
  · intro b _
    have h255 : ((b : ℚ) / 255) * 255 = (b : ℚ) := by
      rw [div_mul_cancel₀]
      norm_num
    rw [h255, round_natCast]

theorem loadDataSet_normalization_witness :
    readIntensities imgStreamEx = some ⟨[[0, 255, 128, 64], [200, 10, 0, 0]], 2, 2⟩ ∧
      (∀ i (h1 : i < dataSetEx.samples.length)
        (h2 : i < ([[0, 255, 128, 64], [200, 10, 0, 0]] : List (List ℕ)).length),
        (dataSetEx.samples.get ⟨i, h1⟩).intensities
          = (([[0, 255, 128, 64], [200, 10, 0, 0]] : List (List ℕ)).get ⟨i, h2⟩).map
              (fun x => (x : ℚ) / 255) ∧
        ∀ b ∈ ([[0, 255, 128, 64], [200, 10, 0, 0]] : List (List ℕ)).get ⟨i, h2⟩,
          round (((b : ℚ) / 255) * 255) = (b : ℤ)) :=
  ⟨by decide,
    loadDataSet_normalization imgStreamEx lblStreamEx dataSetEx
      ⟨[[0, 255, 128, 64], [200, 10, 0, 0]], 2, 2⟩ (by decide) loadDataSet_ex_eval⟩

theorem labelVectorsAux_none (l : List Sample) (s : Sample) (hs : s ∈ l)
    (hn : labelVector s.label = none) : labelVectorsAux l = none := by
  induction l with
  | nil => cases hs
  | cons a rest ih =>
    rcases List.mem_cons.mp hs with h | h
    · subst h
      simp only [labelVectorsAux, hn]
    · cases hv : labelVector a.label with
      | none => simp only [labelVectorsAux, hv]
      | some v => simp only [labelVectorsAux, hv, ih h]

theorem loadDataSet_bad_eval :
    loadDataSet imgStreamEx ([0, 0, 8, 1, 0, 0, 0, 2] ++ [12, 7]) = some dataSetBad := by
  have h1 : readIntensities imgStreamEx = some ⟨[[0, 255, 128, 64], [200, 10, 0, 0]], 2, 2⟩ := by
    decide
  have h2 : readLabels ([0, 0, 8, 1, 0, 0, 0, 2] ++ [12, 7])
      ([[0, 255, 128, 64], [200, 10, 0, 0]] : List (List ℕ)).length = some [12, 7] := by decide
  simp only [loadDataSet, h1, h2, dataSetBad, List.zipWith, List.map, Option.some_inj]
  norm_num

theorem loadDataSet_samples (img : List ℕ) (ir : IntensitiesResult)
    (hdr content : List ℕ) (d : DataSet)
    (hir : readIntensities img = some ir) (hh : hdr.length = 8)
    (hd : loadDataSet img (hdr ++ content) = some d) :
    d.samples = List.zipWith (fun v l => ⟨v.map (fun x => (x : ℚ) / 255), l⟩)
      ir.results (content.take ir.results.length) ∧
    ir.results.length ≤ content.length := by
  rw [loadDataSet_eq img ir hir hdr content hh] at hd
  by_cases h : ir.results.length ≤ content.length
  · rw [if_pos h, Option.some_inj] at hd
    subst hd
    exact ⟨rfl, h⟩
  · rw [if_neg h] at hd
    cases hd

/-- Claim C10: label bytes are not range-checked — a label byte above 9 is
stored unchanged as the sample's label, and computing label vectors for a
data set containing such a sample indexes the length-10 vector out of range
(modelled as `none`, the Go panic). -/
theorem labelVectors_not_range_checked (img : List ℕ) (ir : IntensitiesResult)
    (hdr content : List ℕ) (d : DataSet)
    (hir : readIntensities img = some ir) (hh : hdr.length = 8)
    (hd : loadDataSet img (hdr ++ content) = some d)
    (i : ℕ) (h1 : i < d.samples.length) (h3 : i < content.length)
    (hbig : 9 < content.get ⟨i, h3⟩) :
    9 < (d.samples.get ⟨i, h1⟩).label ∧ labelVectors d = none := by
  obtain ⟨hs, hle⟩ := loadDataSet_samples img ir hdr content d hir hh hd
  have h2 : i < ir.results.length := by
    have h4 := h1
    rw [hs] at h4
    simp only [List.length_zipWith, List.length_take, lt_min_iff] at h4
    exact h4.1
  have hget : d.samples.get ⟨i, h1⟩
      = ⟨(ir.results.get ⟨i, h2⟩).map (fun x => (x : ℚ) / 255), content.get ⟨i, h3⟩⟩ := by
    simp only [List.get_eq_getElem]
    rw [List.getElem_of_eq hs h1, List.getElem_zipWith]
    congr 1
    rw [List.getElem_take]
  refine ⟨?_, ?_⟩
  · rw [hget]
    exact hbig
  · apply labelVectorsAux_none d.samples (d.samples.get ⟨i, h1⟩) (List.get_mem d.samples i h1)
    rw [hget]
    simp only [labelVector]
    rw [if_neg (by omega)]

theorem labelVectors_not_range_checked_witness :
    readIntensities imgStreamEx = some ⟨[[0, 255, 128, 64], [200, 10, 0, 0]], 2, 2⟩ ∧
      ([0, 0, 8, 1, 0, 0, 0, 2] : List ℕ).length = 8 ∧
      (0 : ℕ) < dataSetBad.samples.length ∧ (0 : ℕ) < ([12, 7] : List ℕ).length ∧
      9 < ([12, 7] : List ℕ).get ⟨0, by decide⟩ ∧
      (9 < (dataSetBad.samples.get ⟨0, by decide⟩).label ∧ labelVectors dataSetBad = none) :=
  ⟨by decide, by decide, by decide, by decide, by decide,
    labelVectors_not_range_checked imgStreamEx ⟨[[0, 255, 128, 64], [200, 10, 0, 0]], 2, 2⟩
      [0, 0, 8, 1, 0, 0, 0, 2] [12, 7] dataSetBad (by decide) (by decide)
      loadDataSet_bad_eval 0 (by decide) (by decide) (by decide)⟩

theorem labelVector_one_hot_witness :
    (3 : ℕ) < 10 ∧
      ∃ v, labelVector 3 = some v ∧ v.length = 10 ∧ v.getD 3 0 = 1 ∧
        (∀ j, j < 10 → j ≠ 3 → v.getD j 0 = 0) ∧ v.sum = 1 :=
  ⟨by decide, labelVector_one_hot 3 (by decide)⟩

theorem setPixel_apply (iw ih : ℕ) (c : Canvas) (x y px py : ℕ) (col : RGBA) :
    setPixel iw ih c x y col px py
      = if (x < iw ∧ y < ih) ∧ px = x ∧ py = y then col else c px py := by
  unfold setPixel
  by_cases hb : x < iw ∧ y < ih
  · rw [if_pos hb]
    by_cases he : px = x ∧ py = y
    · rw [if_pos he, if_pos ⟨hb, he⟩]
    · rw [if_neg he, if_neg (by tauto)]
  · rw [if_neg hb, if_neg (by tauto)]

theorem foldl_canvas_preserve {α : Type} (f : Canvas → α → Canvas) (l : List α) (c : Canvas)
    (px py : ℕ) (h : ∀ c1 a, a ∈ l → f c1 a px py = c1 px py) :
    (l.foldl f c) px py = c px py := by
  induction l generalizing c with
  | nil => rfl
  | cons a rest ih =>
    rw [List.foldl_cons, ih _ (fun c1 b hb => h c1 b (List.mem_cons_of_mem a hb)),
      h c a (List.mem_cons_self a rest)]

theorem drawRow_unchanged (iw ih x yy w : ℕ) (pixels : List ℚ) (base : ℕ) (c : Canvas)
    (px py : ℕ) (hout : px < x ∨ x + w ≤ px ∨ py ≠ yy) :
    drawRow iw ih x yy w pixels base c px py = c px py := by
  unfold drawRow
  apply foldl_canvas_preserve
  intro c1 rx hrx
  rw [List.mem_range] at hrx
  rw [setPixel_apply]
  rw [if_neg]
  rintro ⟨-, hpx, hpy⟩
  omega

theorem drawRow_apply_inside (iw ih x yy w : ℕ) (pixels : List ℚ) (base : ℕ) (c : Canvas)
    (rx : ℕ) (hrx : rx < w) (hbx : x + rx < iw) (hby : yy < ih) :
    drawRow iw ih x yy w pixels base c (x + rx) yy
      = pixelColor (pixels.getD (base + rx) 0) := by
  induction w generalizing c with
  | zero => omega
  | succ w ih2 =>
    unfold drawRow
    rw [List.range_succ, List.foldl_append, List.foldl_cons, List.foldl_nil]
    rcases Nat.lt_succ_iff_lt_or_eq.mp hrx with h | h
    · rw [setPixel_apply, if_neg (by rintro ⟨-, hpx, -⟩; omega)]
      exact ih2 c h
    · subst h
      rw [setPixel_apply, if_pos ⟨⟨hbx, hby⟩, rfl, rfl⟩]

theorem drawBitmap_unchanged (iw ih x y w h : ℕ) (pixels : List ℚ) (c : Canvas)
    (px py : ℕ) (hout : px < x ∨ x + w ≤ px ∨ py < y ∨ y + h ≤ py) :
    drawBitmap iw ih x y w h pixels c px py = c px py := by
  unfold drawBitmap
  apply foldl_canvas_preserve
  intro c1 ry hry
  rw [List.mem_range] at hry
  apply drawRow_unchanged
  rcases hout with h1 | h1 | h1 | h1
  · exact Or.inl h1
  · exact Or.inr (Or.inl h1)
  · exact Or.inr (Or.inr (by omega))
  · exact Or.inr (Or.inr (by omega))

theorem drawBitmap_apply_inside (iw ih x y w h : ℕ) (pixels : List ℚ) (c : Canvas)
    (rx ry : ℕ) (hrx : rx < w) (hry : ry < h) (hbx : x + rx < iw) (hby : y + ry < ih) :
    drawBitmap iw ih x y w h pixels c (x + rx) (y + ry)
      = pixelColor (pixels.getD (ry * w + rx) 0) := by
  induction h generalizing c with
  | zero => omega
  | succ h ih2 =>
    unfold drawBitmap
    rw [List.range_succ, List.foldl_append, List.foldl_cons, List.foldl_nil]
    rcases Nat.lt_succ_iff_lt_or_eq.mp hry with h1 | h1
    · rw [drawRow_unchanged _ _ _ _ _ _ _ _ _ _ (by right; right; omega)]
      exact ih2 c h1
    · subst h1
      exact drawRow_apply_inside iw ih x (y + ry) w pixels (ry * w) _ rx hrx hbx hby

theorem fillRow_fold_apply (iw ih yy : ℕ) (c : Canvas) (px py : ℕ) (n : ℕ) :
    ((List.range n).foldl (fun c2 x => setPixel iw ih c2 x yy gridBackground) c) px py
      = if px < n ∧ px < iw ∧ py = yy ∧ yy < ih then gridBackground else c px py := by
  induction n with
  | zero => simp
  | succ n ih2 =>
    rw [List.range_succ, List.foldl_append, List.foldl_cons, List.foldl_nil, setPixel_apply]
    by_cases h1 : px = n ∧ py = yy ∧ n < iw ∧ yy < ih
    · rw [if_pos (by tauto), if_pos (by omega)]
    · rw [if_neg (by tauto), ih2]
      by_cases h2 : px < n ∧ px < iw ∧ py = yy ∧ yy < ih
      · rw [if_pos h2, if_pos (by omega)]
      · rw [if_neg h2, if_neg (by omega)]

theorem fillRow_apply (iw ih yy : ℕ) (c : Canvas) (px py : ℕ) :
    fillRow iw ih yy c px py
      = if px < iw ∧ py = yy ∧ yy < ih then gridBackground else c px py := by
  unfold fillRow
  rw [fillRow_fold_apply]
  by_cases h : px < iw ∧ py = yy ∧ yy < ih
  · rw [if_pos (by tauto), if_pos h]
  · rw [if_neg (by tauto), if_neg h]

theorem fillBackground_apply (iw ih : ℕ) (c : Canvas) (px py : ℕ) :
    fillBackground iw ih c px py
      = if px < iw ∧ py < ih then gridBackground else c px py := by
  unfold fillBackground
  have main : ∀ m, ((List.range m).foldl (fun c1 y => fillRow iw ih y c1) c) px py
      = if px < iw ∧ py < m ∧ py < ih then gridBackground else c px py := by
    intro m
    induction m with
    | zero => simp
    | succ m ih2 =>
      rw [List.range_succ, List.foldl_append, List.foldl_cons, List.foldl_nil, fillRow_apply]
      by_cases h1 : px < iw ∧ py = m ∧ m < ih
      · rw [if_pos h1, if_pos (by omega)]
      · rw [if_neg h1, ih2]
        by_cases h2 : px < iw ∧ py < m ∧ py < ih
        · rw [if_pos h2, if_pos (by omega)]
        · rw [if_neg h2, if_neg (by omega)]
  rw [main ih]
  by_cases h : px < iw ∧ py < ih
  · rw [if_pos (by omega), if_pos h]
  · rw [if_neg (by omega), if_neg h]

theorem cellX_add_le (w col cols : ℕ) (h : col < cols) :
    cellX w col + (w * 2 + smallGridSpace)
      ≤ gridSpacing * (cols + 1) + cols * (w * 2 + smallGridSpace) := by
  unfold cellX
  have h1 : (col + 1) * (w * 2 + smallGridSpace) ≤ cols * (w * 2 + smallGridSpace) :=
    Nat.mul_le_mul_right _ h
  have h2 : gridSpacing * (col + 1) ≤ gridSpacing * cols :=
    Nat.mul_le_mul_left _ h
  have e1 : (col + 1) * (w * 2 + smallGridSpace)
      = col * (w * 2 + smallGridSpace) + (w * 2 + smallGridSpace) := by ring
  have e2 : gridSpacing * (cols + 1) = gridSpacing * cols + gridSpacing := by ring
  omega

theorem cellX_lt_le (w col col' : ℕ) (h : col < col') :
    cellX w col + (w * 2 + smallGridSpace) ≤ cellX w col' := by
  unfold cellX
  have h1 : (col + 1) * (w * 2 + smallGridSpace) ≤ col' * (w * 2 + smallGridSpace) :=
    Nat.mul_le_mul_right _ h
  have h2 : gridSpacing * (col + 1) ≤ gridSpacing * (col' + 1) :=
    Nat.mul_le_mul_left _ (by omega)
  have e1 : (col + 1) * (w * 2 + smallGridSpace)
      = col * (w * 2 + smallGridSpace) + (w * 2 + smallGridSpace) := by ring
  omega

theorem cellY_add_le (h row rows : ℕ) (hr : row < rows) :
    cellY h row + h ≤ gridSpacing * (rows + 1) + rows * h := by
  unfold cellY
  have h1 : (row + 1) * h ≤ rows * h := Nat.mul_le_mul_right _ hr
  have h2 : gridSpacing * (row + 1) ≤ gridSpacing * rows :=
    Nat.mul_le_mul_left _ hr
  have e1 : (row + 1) * h = row * h + h := by ring
  have e2 : gridSpacing * (rows + 1) = gridSpacing * rows + gridSpacing := by ring
  omega

theorem cellY_lt_le (h row row' : ℕ) (hr : row < row') :
    cellY h row + h ≤ cellY h row' := by
  unfold cellY
  have h1 : (row + 1) * h ≤ row' * h := Nat.mul_le_mul_right _ hr
  have h2 : gridSpacing * (row + 1) ≤ gridSpacing * (row' + 1) :=
    Nat.mul_le_mul_left _ (by omega)
  have e1 : (row + 1) * h = row * h + h := by ring
  omega

theorem drawCell_unchanged (iw ih : ℕ) (rcon : List ℚ → List ℚ) (d : DataSet)
    (row col si : ℕ) (c : Canvas) (px py : ℕ)
    (hout : px < cellX d.width col
      ∨ cellX d.width col + (d.width * 2 + smallGridSpace) ≤ px
      ∨ py < cellY d.height row ∨ cellY d.height row + d.height ≤ py) :
    drawCell iw ih rcon d row col si c px py = c px py := by
  unfold drawCell
  rw [drawBitmap_unchanged _ _ _ _ _ _ _ _ _ _ (by omega),
    drawBitmap_unchanged _ _ _ _ _ _ _ _ _ _ (by omega)]

theorem drawCell_apply_orig (iw ih : ℕ) (rcon : List ℚ → List ℚ) (d : DataSet)
    (row col si : ℕ) (c : Canvas) (rx ry : ℕ)
    (hrx : rx < d.width) (hry : ry < d.height)
    (hbx : cellX d.width col + rx < iw) (hby : cellY d.height row + ry < ih) :
    drawCell iw ih rcon d row col si c (cellX d.width col + rx) (cellY d.height row + ry)
      = pixelColor ((d.samples.getD si defaultSample).intensities.getD (ry * d.width + rx) 0) := by
  unfold drawCell
  rw [drawBitmap_unchanged _ _ _ _ _ _ _ _ _ _ (by left; omega)]
  exact drawBitmap_apply_inside _ _ _ _ _ _ _ _ _ _ hrx hry hbx hby

theorem drawCell_apply_recon (iw ih : ℕ) (rcon : List ℚ → List ℚ) (d : DataSet)
    (row col si : ℕ) (c : Canvas) (rx ry : ℕ)
    (hrx : rx < d.width) (hry : ry < d.height)
    (hbx : cellX d.width col + d.width + smallGridSpace + rx < iw)
    (hby : cellY d.height row + ry < ih) :
    drawCell iw ih rcon d row col si c
        (cellX d.width col + d.width + smallGridSpace + rx) (cellY d.height row + ry)
      = pixelColor ((rcon (d.samples.getD si defaultSample).intensities).getD
          (ry * d.width + rx) 0) := by
  unfold drawCell
  exact drawBitmap_apply_inside _ _ _ _ _ _ _ _ _ _ hrx hry hbx hby

theorem gridRow_unchanged (iw ih : ℕ) (rcon : List ℚ → List ℚ) (d : DataSet)
    (pick : ℕ → ℕ → ℕ) (row cols : ℕ) (c : Canvas) (px py : ℕ)
    (hout : ∀ col, col < cols →
      px < cellX d.width col
        ∨ cellX d.width col + (d.width * 2 + smallGridSpace) ≤ px
        ∨ py < cellY d.height row ∨ cellY d.height row + d.height ≤ py) :
    ((List.range cols).foldl
        (fun c2 col => drawCell iw ih rcon d row col (pick row col) c2) c) px py
      = c px py := by
  apply foldl_canvas_preserve
  intro c1 col hcol
  rw [List.mem_range] at hcol
  exact drawCell_unchanged iw ih rcon d row col (pick row col) c1 px py (hout col hcol)

theorem gridRow_apply_orig (iw ih : ℕ) (rcon : List ℚ → List ℚ) (d : DataSet)
    (pick : ℕ → ℕ → ℕ) (row cols : ℕ) (c : Canvas) (col rx ry : ℕ)
    (hcol : col < cols) (hrx : rx < d.width) (hry : ry < d.height)
    (hbx : cellX d.width col + rx < iw) (hby : cellY d.height row + ry < ih) :
    ((List.range cols).foldl
        (fun c2 col2 => drawCell iw ih rcon d row col2 (pick row col2) c2) c)
        (cellX d.width col + rx) (cellY d.height row + ry)
      = pixelColor ((d.samples.getD (pick row col) defaultSample).intensities.getD
          (ry * d.width + rx) 0) := by
  induction cols generalizing c with
  | zero => omega
  | succ cols ih2 =>
    rw [List.range_succ, List.foldl_append, List.foldl_cons, List.foldl_nil]
    rcases Nat.lt_succ_iff_lt_or_eq.mp hcol with h1 | h1
    · rw [drawCell_unchanged iw ih rcon d row cols (pick row cols) _ _ _
        (by left; have := cellX_lt_le d.width col cols h1; omega)]
      exact ih2 c h1
    · subst h1
      exact drawCell_apply_orig iw ih rcon d row col (pick row col) _ rx ry hrx hry hbx hby

theorem gridRow_apply_recon (iw ih : ℕ) (rcon : List ℚ → List ℚ) (d : DataSet)
    (pick : ℕ → ℕ → ℕ) (row cols : ℕ) (c : Canvas) (col rx ry : ℕ)
    (hcol : col < cols) (hrx : rx < d.width) (hry : ry < d.height)
    (hbx : cellX d.width col + d.width + smallGridSpace + rx < iw)
    (hby : cellY d.height row + ry < ih) :
    ((List.range cols).foldl
        (fun c2 col2 => drawCell iw ih rcon d row col2 (pick row col2) c2) c)
        (cellX d.width col + d.width + smallGridSpace + rx) (cellY d.height row + ry)
      = pixelColor ((rcon (d.samples.getD (pick row col) defaultSample).intensities).getD
          (ry * d.width + rx) 0) := by
  induction cols generalizing c with
  | zero => omega
  | succ cols ih2 =>
    rw [List.range_succ, List.foldl_append, List.foldl_cons, List.foldl_nil]
    rcases Nat.lt_succ_iff_lt_or_eq.mp hcol with h1 | h1
    · rw [drawCell_unchanged iw ih rcon d row cols (pick row cols) _ _ _
        (by left; have := cellX_lt_le d.width col cols h1; omega)]
      exact ih2 c h1
    · subst h1
      exact drawCell_apply_recon iw ih rcon d row col (pick row col) _ rx ry hrx hry hbx hby

theorem grid_fold_unchanged (iw ih : ℕ) (rcon : List ℚ → List ℚ) (d : DataSet)
    (pick : ℕ → ℕ → ℕ) (rows cols : ℕ) (c : Canvas) (px py : ℕ)
    (hout : ∀ row col, row < rows → col < cols → ¬ inCell d.width d.height px py row col) :
    ((List.range rows).foldl (fun c1 row =>
        (List.range cols).foldl
          (fun c2 col => drawCell iw ih rcon d row col (pick row col) c2) c1) c) px py
      = c px py := by
  apply foldl_canvas_preserve
  intro c1 row hrow
  rw [List.mem_range] at hrow
  apply gridRow_unchanged
  intro col hcol
  have h1 := hout row col hrow hcol
  unfold inCell at h1
  omega

theorem grid_fold_apply_orig (iw ih : ℕ) (rcon : List ℚ → List ℚ) (d : DataSet)
    (pick : ℕ → ℕ → ℕ) (rows cols : ℕ) (c : Canvas) (row col rx ry : ℕ)
    (hrow : row < rows) (hcol : col < cols) (hrx : rx < d.width) (hry : ry < d.height)
    (hbx : cellX d.width col + rx < iw) (hby : cellY d.height row + ry < ih) :
    ((List.range rows).foldl (fun c1 row2 =>
        (List.range cols).foldl
          (fun c2 col2 => drawCell iw ih rcon d row2 col2 (pick row2 col2) c2) c1) c)
        (cellX d.width col + rx) (cellY d.height row + ry)
      = pixelColor ((d.samples.getD (pick row col) defaultSample).intensities.getD
          (ry * d.width + rx) 0) := by
  induction rows generalizing c with
  | zero => omega
  | succ rows ih2 =>
    rw [List.range_succ, List.foldl_append, List.foldl_cons, List.foldl_nil]
    rcases Nat.lt_succ_iff_lt_or_eq.mp hrow with h1 | h1
    · rw [gridRow_unchanged iw ih rcon d pick rows cols _ _ _
        (fun col2 _ => by
          have := cellY_lt_le d.height row rows h1
          omega)]
      exact ih2 c h1
    · subst h1
      exact gridRow_apply_orig iw ih rcon d pick row cols _ col rx ry hcol hrx hry hbx hby

theorem grid_fold_apply_recon (iw ih : ℕ) (rcon : List ℚ → List ℚ) (d : DataSet)
    (pick : ℕ → ℕ → ℕ) (rows cols : ℕ) (c : Canvas) (row col rx ry : ℕ)
    (hrow : row < rows) (hcol : col < cols) (hrx : rx < d.width) (hry : ry < d.height)
    (hbx : cellX d.width col + d.width + smallGridSpace + rx < iw)
    (hby : cellY d.height row + ry < ih) :
    ((List.range rows).foldl (fun c1 row2 =>
        (List.range cols).foldl
          (fun c2 col2 => drawCell iw ih rcon d row2 col2 (pick row2 col2) c2) c1) c)
        (cellX d.width col + d.width + smallGridSpace + rx) (cellY d.height row + ry)
      = pixelColor ((rcon (d.samples.getD (pick row col) defaultSample).intensities).getD
          (ry * d.width + rx) 0) := by
  induction rows generalizing c with
  | zero => omega
  | succ rows ih2 =>
    rw [List.range_succ, List.foldl_append, List.foldl_cons, List.foldl_nil]
    rcases Nat.lt_succ_iff_lt_or_eq.mp hrow with h1 | h1
    · rw [gridRow_unchanged iw ih rcon d pick rows cols _ _ _
        (fun col2 _ => by
          have := cellY_lt_le d.height row rows h1
          omega)]
      exact ih2 c h1
    · subst h1
      exact gridRow_apply_recon iw ih rcon d pick row cols _ col rx ry hcol hrx hry hbx hby

/-- Claim C7: for a non-empty data set and any rows, cols, the canvas is
`gridSpacing*(cols+1) + cols*(2*width + smallGridSpace)` wide and
`gridSpacing*(rows+1) + rows*height` high; in each cell the chosen sample's
bitmap is drawn at the cell's top-left `(x, y)` and its reconstruction at
`(x + width + smallGridSpace, y)`; and every in-bounds pixel outside every
cell is the fixed background color. -/
theorem reconstructionGrid_layout (rcon : List ℚ → List ℚ) (d : DataSet) (rows cols : ℕ)
    (pick : ℕ → ℕ → ℕ) (_hne : d.samples ≠ [])
    (_hpick : ∀ a b, pick a b < d.samples.length) :
    (reconstructionGrid rcon d rows cols pick).width
        = gridSpacing * (cols + 1) + cols * (d.width * 2 + smallGridSpace) ∧
    (reconstructionGrid rcon d rows cols pick).height
        = gridSpacing * (rows + 1) + rows * d.height ∧
    (∀ row col rx ry, row < rows → col < cols → rx < d.width → ry < d.height →
      (reconstructionGrid rcon d rows cols pick).canvas
          (cellX d.width col + rx) (cellY d.height row + ry)
        = pixelColor ((d.samples.getD (pick row col) defaultSample).intensities.getD
            (ry * d.width + rx) 0) ∧
      (reconstructionGrid rcon d rows cols pick).canvas
          (cellX d.width col + d.width + smallGridSpace + rx) (cellY d.height row + ry)
        = pixelColor ((rcon (d.samples.getD (pick row col) defaultSample).intensities).getD
            (ry * d.width + rx) 0)) ∧
    (∀ px py, px < (reconstructionGrid rcon d rows cols pick).width →
      py < (reconstructionGrid rcon d rows cols pick).height →
      (∀ row col, row < rows → col < cols → ¬ inCell d.width d.height px py row col) →
      (reconstructionGrid rcon d rows cols pick).canvas px py = gridBackground) := by
  refine ⟨rfl, rfl, ?_, ?_⟩
  · intro row col rx ry hrow hcol hrx hry
    have hx := cellX_add_le d.width col cols hcol
    have hy := cellY_add_le d.height row rows hrow
    constructor
    · exact grid_fold_apply_orig _ _ rcon d pick rows cols
        (fillBackground _ _ emptyCanvas) row col rx ry hrow hcol hrx hry
        (by omega) (by omega)
    · exact grid_fold_apply_recon _ _ rcon d pick rows cols
        (fillBackground _ _ emptyCanvas) row col rx ry hrow hcol hrx hry
        (by omega) (by omega)
  · intro px py hpx hpy hout
    show ((List.range rows).foldl _ (fillBackground _ _ emptyCanvas)) px py = gridBackground
    rw [grid_fold_unchanged _ _ rcon d pick rows cols _ px py hout, fillBackground_apply,
      if_pos ⟨hpx, hpy⟩]

theorem reconstructionGrid_layout_witness :
    (({ samples := [⟨[1/2], 5⟩], width := 1, height := 1 } : DataSet).samples ≠ []) ∧
    (∀ a b : ℕ, (fun (_ _ : ℕ) => 0) a b
        < ({ samples := [⟨[1/2], 5⟩], width := 1, height := 1 } : DataSet).samples.length) ∧
    ((reconstructionGrid id { samples := [⟨[1/2], 5⟩], width := 1, height := 1 } 1 1
        (fun _ _ => 0)).width
      = gridSpacing * (1 + 1)
        + 1 * (({ samples := [⟨[1/2], 5⟩], width := 1, height := 1 } : DataSet).width * 2
          + smallGridSpace) ∧
    (reconstructionGrid id { samples := [⟨[1/2], 5⟩], width := 1, height := 1 } 1 1
        (fun _ _ => 0)).height
      = gridSpacing * (1 + 1)
        + 1 * ({ samples := [⟨[1/2], 5⟩], width := 1, height := 1 } : DataSet).height ∧
    (∀ row col rx ry, row < 1 → col < 1 →
      rx < ({ samples := [⟨[1/2], 5⟩], width := 1, height := 1 } : DataSet).width →
      ry < ({ samples := [⟨[1/2], 5⟩], width := 1, height := 1 } : DataSet).height →
      (reconstructionGrid id { samples := [⟨[1/2], 5⟩], width := 1, height := 1 } 1 1
          (fun _ _ => 0)).canvas
          (cellX ({ samples := [⟨[1/2], 5⟩], width := 1, height := 1 } : DataSet).width col + rx)
          (cellY ({ samples := [⟨[1/2], 5⟩], width := 1, height := 1 } : DataSet).height row + ry)
        = pixelColor ((({ samples := [⟨[1/2], 5⟩], width := 1, height := 1 } : DataSet).samples.getD
              ((fun (_ _ : ℕ) => 0) row col) defaultSample).intensities.getD
            (ry * ({ samples := [⟨[1/2], 5⟩], width := 1, height := 1 } : DataSet).width + rx) 0) ∧
      (reconstructionGrid id { samples := [⟨[1/2], 5⟩], width := 1, height := 1 } 1 1
          (fun _ _ => 0)).canvas
          (cellX ({ samples := [⟨[1/2], 5⟩], width := 1, height := 1 } : DataSet).width col
            + ({ samples := [⟨[1/2], 5⟩], width := 1, height := 1 } : DataSet).width
            + smallGridSpace + rx)
          (cellY ({ samples := [⟨[1/2], 5⟩], width := 1, height := 1 } : DataSet).height row + ry)
        = pixelColor ((id (({ samples := [⟨[1/2], 5⟩], width := 1, height := 1 }
              : DataSet).samples.getD ((fun (_ _ : ℕ) => 0) row col)
                defaultSample).intensities).getD
            (ry * ({ samples := [⟨[1/2], 5⟩], width := 1, height := 1 } : DataSet).width + rx) 0)) ∧
    (∀ px py,
      px < (reconstructionGrid id { samples := [⟨[1/2], 5⟩], width := 1, height := 1 } 1 1
        (fun _ _ => 0)).width →
      py < (reconstructionGrid id { samples := [⟨[1/2], 5⟩], width := 1, height := 1 } 1 1
        (fun _ _ => 0)).height →
      (∀ row col, row < 1 → col < 1 →
        ¬ inCell ({ samples := [⟨[1/2], 5⟩], width := 1, height := 1 } : DataSet).width
          ({ samples := [⟨[1/2], 5⟩], width := 1, height := 1 } : DataSet).height px py row col) →
      (reconstructionGrid id { samples := [⟨[1/2], 5⟩], width := 1, height := 1 } 1 1
        (fun _ _ => 0)).canvas px py = gridBackground)) :=
  ⟨by simp, by intro a b; simp,
    reconstructionGrid_layout id { samples := [⟨[1/2], 5⟩], width := 1, height := 1 } 1 1
      (fun _ _ => 0) (by simp) (by intro a b; simp)⟩

/-- Claim C8, counterexample to the claim as stated: the pixel value 1/2 is
written with luma `255 - uint8(127.5) = 128`, while `255 - round(127.5)`
is 127 — Go's `uint8` conversion truncates, it does not round.
(`pixelColor` is exactly the color `ReconstructionGrid` writes for a drawn
pixel value, via `drawRow`.) -/
theorem pixelColor_not_round :
    pixelColor (1/2) ≠ grayColor (255 - (round ((1/2 : ℚ) * 255)).toNat) := by
  have h1 : round ((1/2 : ℚ) * 255) = 128 := by
    have e : (1/2 : ℚ) * 255 = 255/2 := by norm_num
    rw [e, round_eq]
    norm_num
  have h2 : ⌊(1/2 : ℚ) * 255⌋ = 127 := by
    apply Int.floor_eq_iff.mpr
    norm_num
  simp only [pixelColor, uint8OfFloat, grayColor, h1, h2]
  intro h
  cases h

/-- Claim C8 (amended): for every drawn pixel value v in [0, 1], the luma
written to the canvas is `255 - trunc(v*255)` — Go's `uint8` conversion
truncates toward zero (equal to the floor for nonnegative values) rather
than rounding. -/
theorem pixelColor_floor (v : ℚ) (h0 : 0 ≤ v) (h1 : v ≤ 1) :
    pixelColor v = grayColor (255 - (⌊v * 255⌋).toNat) := by
  unfold pixelColor uint8OfFloat
  congr 2
  have hf0 : (0 : ℤ) ≤ ⌊v * 255⌋ := Int.floor_nonneg.mpr (by positivity)
  have hf1 : ⌊v * 255⌋ ≤ 255 := by
    have hv : v * 255 ≤ 255 := by nlinarith
    calc ⌊v * 255⌋ ≤ ⌊(255 : ℚ)⌋ := Int.floor_le_floor hv
      _ = 255 := by norm_num
  have hlt : (⌊v * 255⌋).toNat < 256 := by omega
  exact Nat.mod_eq_of_lt hlt

theorem pixelColor_floor_witness :
    (0 : ℚ) ≤ 1/2 ∧ (1/2 : ℚ) ≤ 1 ∧
      pixelColor (1/2) = grayColor (255 - (⌊(1/2 : ℚ) * 255⌋).toNat) :=
  ⟨by norm_num, by norm_num, pixelColor_floor (1/2) (by norm_num) (by norm_num)⟩

end Mnist
